import Mathlib

/-!
Verification of the quantum-state visualizer's computational core:
the Bloch/purity analyzer and partial-trace reduction (quantum_utils.py),
the noise-model builder (app.py), and the gate-list circuit builder
(quantum_utils.py), embedded shallowly over complex matrices.
-/

open scoped ComplexOrder

namespace QViz

noncomputable section

/-- The Pauli X matrix as written in get_bloch_vector_from_rho. -/
def pauli_x : Matrix (Fin 2) (Fin 2) ℂ := !![0, 1; 1, 0]

/-- The Pauli Y matrix as written in get_bloch_vector_from_rho. -/
def pauli_y : Matrix (Fin 2) (Fin 2) ℂ := !![0, -Complex.I; Complex.I, 0]

/-- The Pauli Z matrix as written in get_bloch_vector_from_rho. -/
def pauli_z : Matrix (Fin 2) (Fin 2) ℂ := !![1, 0; 0, -1]

/-- Embedding of quantum_utils.get_bloch_vector_from_rho: the real parts of
the traces of the products pauli_sigma @ rho, in the order (x, y, z). -/
def get_bloch_vector_from_rho (rho : Matrix (Fin 2) (Fin 2) ℂ) : ℝ × ℝ × ℝ :=
  (((pauli_x * rho).trace).re, ((pauli_y * rho).trace).re, ((pauli_z * rho).trace).re)

/-- Embedding of quantum_utils.purity_from_rho: Re Tr(rho @ rho).
np.dot and np.trace are shape generic, so the index type is a parameter. -/
def purity_from_rho {k : Type*} [Fintype k] (rho : Matrix k k ℂ) : ℝ :=
  ((rho * rho).trace).re

/-- The Bloch map as the spec words it: x = Tr(ρ·σx), y = Tr(ρ·σy),
z = Tr(ρ·σz), each taking the real part (note the operand order ρ·σ,
the reverse of the code's σ·ρ). -/
def bloch_vector_spec (rho : Matrix (Fin 2) (Fin 2) ℂ) : ℝ × ℝ × ℝ :=
  (((rho * pauli_x).trace).re, ((rho * pauli_y).trace).re, ((rho * pauli_z).trace).re)

/-- Purity as the spec words it: Tr(ρ·ρ), real part. -/
def purity_spec (rho : Matrix (Fin 2) (Fin 2) ℂ) : ℝ :=
  ((rho * rho).trace).re

lemma trace_pauli_x_mul (rho : Matrix (Fin 2) (Fin 2) ℂ) :
    (pauli_x * rho).trace = rho 1 0 + rho 0 1 := by
  simp [pauli_x, Matrix.trace_fin_two, Matrix.mul_apply, Matrix.vecMul,
    Matrix.dotProduct, Fin.sum_univ_two]

lemma trace_pauli_y_mul (rho : Matrix (Fin 2) (Fin 2) ℂ) :
    (pauli_y * rho).trace = Complex.I * rho 0 1 - Complex.I * rho 1 0 := by
  simp [pauli_y, Matrix.trace_fin_two, Matrix.mul_apply, Matrix.vecMul,
    Matrix.dotProduct, Fin.sum_univ_two]
  ring

lemma trace_pauli_z_mul (rho : Matrix (Fin 2) (Fin 2) ℂ) :
    (pauli_z * rho).trace = rho 0 0 - rho 1 1 := by
  simp [pauli_z, Matrix.trace_fin_two, Matrix.mul_apply, Matrix.vecMul,
    Matrix.dotProduct, Fin.sum_univ_two]
  ring

/-- C2: get_bloch_vector_from_rho returns exactly the real parts of
Tr(ρ·σx), Tr(ρ·σy), Tr(ρ·σz) — the three Pauli expectation values — and
purity_from_rho returns exactly Re Tr(ρ·ρ), for every 2x2 complex ρ. -/
theorem C2_bloch_and_purity_match_pauli_traces (rho : Matrix (Fin 2) (Fin 2) ℂ) :
    get_bloch_vector_from_rho rho = bloch_vector_spec rho ∧
    purity_from_rho rho = purity_spec rho := by
  constructor
  · unfold get_bloch_vector_from_rho bloch_vector_spec
    rw [Matrix.trace_mul_comm rho pauli_x, Matrix.trace_mul_comm rho pauli_y,
      Matrix.trace_mul_comm rho pauli_z]
  · rfl

lemma trace_mul_self_fin_two (rho : Matrix (Fin 2) (Fin 2) ℂ) :
    (rho * rho).trace =
      rho 0 0 * rho 0 0 + rho 0 1 * rho 1 0 + (rho 1 0 * rho 0 1 + rho 1 1 * rho 1 1) := by
  simp [Matrix.trace_fin_two, Matrix.mul_apply, Matrix.vecMul, Matrix.dotProduct,
    Fin.sum_univ_two]
  try ring

/-- C1: on every Hermitian, trace-1, positive-semidefinite 2x2 matrix ρ the
Euclidean norm of the Bloch vector is at most 1; it equals 1 exactly when the
purity is 1; and the squared norm equals 2·purity − 1. -/
theorem C1_bloch_norm_le_one_iff_pure (rho : Matrix (Fin 2) (Fin 2) ℂ)
    (hpsd : rho.PosSemidef) (htr : rho.trace = 1) :
    Real.sqrt ((get_bloch_vector_from_rho rho).1 ^ 2 +
        (get_bloch_vector_from_rho rho).2.1 ^ 2 +
        (get_bloch_vector_from_rho rho).2.2 ^ 2) ≤ 1 ∧
    (Real.sqrt ((get_bloch_vector_from_rho rho).1 ^ 2 +
        (get_bloch_vector_from_rho rho).2.1 ^ 2 +
        (get_bloch_vector_from_rho rho).2.2 ^ 2) = 1 ↔ purity_from_rho rho = 1) ∧
    (get_bloch_vector_from_rho rho).1 ^ 2 + (get_bloch_vector_from_rho rho).2.1 ^ 2 +
        (get_bloch_vector_from_rho rho).2.2 ^ 2 = 2 * purity_from_rho rho - 1 := by
  obtain ⟨hH, hq⟩ := hpsd
  have h10 : rho 1 0 = (starRingEnd ℂ) (rho 0 1) := (hH.apply 1 0).symm
  have h00 : (rho 0 0).im = 0 := by
    have h' := congrArg Complex.im (hH.apply 0 0)
    simp at h'
    linarith
  have h11 : (rho 1 1).im = 0 := by
    have h' := congrArg Complex.im (hH.apply 1 1)
    simp at h'
    linarith
  have htr_re : (rho 0 0).re + (rho 1 1).re = 1 := by
    have h := congrArg Complex.re ((Matrix.trace_fin_two rho).symm.trans htr)
    simpa using h
  have hbx : (get_bloch_vector_from_rho rho).1 = 2 * (rho 0 1).re := by
    show ((pauli_x * rho).trace).re = _
    rw [trace_pauli_x_mul, h10]
    simp
    try ring
  have hby : (get_bloch_vector_from_rho rho).2.1 = -2 * (rho 0 1).im := by
    show ((pauli_y * rho).trace).re = _
    rw [trace_pauli_y_mul, h10]
    simp [Complex.mul_re]
    try ring
  have hbz : (get_bloch_vector_from_rho rho).2.2 = (rho 0 0).re - (rho 1 1).re := by
    show ((pauli_z * rho).trace).re = _
    rw [trace_pauli_z_mul]
    simp
  have hpur : purity_from_rho rho =
      (rho 0 0).re ^ 2 + (rho 1 1).re ^ 2 + 2 * ((rho 0 1).re ^ 2 + (rho 0 1).im ^ 2) := by
    show ((rho * rho).trace).re = _
    rw [trace_mul_self_fin_two, h10]
    simp [Complex.add_re, Complex.mul_re, h00, h11]
    ring
  have hq1 := (Complex.le_def.mp (hq ![-(rho 0 1), rho 0 0])).1
  have hq2 := (Complex.le_def.mp (hq ![rho 1 1, -(rho 1 0)])).1
  simp only [Complex.zero_re] at hq1 hq2
  have e1 : (Matrix.dotProduct (star (![-(rho 0 1), rho 0 0] : Fin 2 → ℂ))
      (rho.mulVec (![-(rho 0 1), rho 0 0] : Fin 2 → ℂ))).re =
      (rho 0 0).re * ((rho 0 0).re * (rho 1 1).re -
        ((rho 0 1).re ^ 2 + (rho 0 1).im ^ 2)) := by
    simp [Matrix.dotProduct, Matrix.mulVec, Fin.sum_univ_two, Pi.star_apply,
      Complex.star_def, map_neg, Complex.add_re, Complex.add_im,
      Complex.mul_re, Complex.mul_im, Complex.neg_re, Complex.neg_im, h00, h11, h10]
    ring
  have e2 : (Matrix.dotProduct (star (![rho 1 1, -(rho 1 0)] : Fin 2 → ℂ))
      (rho.mulVec (![rho 1 1, -(rho 1 0)] : Fin 2 → ℂ))).re =
      (rho 1 1).re * ((rho 0 0).re * (rho 1 1).re -
        ((rho 0 1).re ^ 2 + (rho 0 1).im ^ 2)) := by
    simp [Matrix.dotProduct, Matrix.mulVec, Fin.sum_univ_two, Pi.star_apply,
      Complex.star_def, map_neg, Complex.add_re, Complex.add_im,
      Complex.mul_re, Complex.mul_im, Complex.neg_re, Complex.neg_im, h00, h11, h10]
    ring
  rw [e1] at hq1
  rw [e2] at hq2
  have hdet : (rho 0 1).re ^ 2 + (rho 0 1).im ^ 2 ≤ (rho 0 0).re * (rho 1 1).re := by
    nlinarith [hq1, hq2, htr_re]
  have hS : (get_bloch_vector_from_rho rho).1 ^ 2 + (get_bloch_vector_from_rho rho).2.1 ^ 2 +
      (get_bloch_vector_from_rho rho).2.2 ^ 2 = 2 * purity_from_rho rho - 1 := by
    rw [hbx, hby, hbz, hpur]
    linear_combination (-(1 + (rho 0 0).re + (rho 1 1).re)) * htr_re
  have hS_le : (get_bloch_vector_from_rho rho).1 ^ 2 +
      (get_bloch_vector_from_rho rho).2.1 ^ 2 +
      (get_bloch_vector_from_rho rho).2.2 ^ 2 ≤ 1 := by
    rw [hbx, hby, hbz]
    nlinarith [hdet, htr_re]
  refine ⟨?_, ?_, hS⟩
  · calc Real.sqrt ((get_bloch_vector_from_rho rho).1 ^ 2 +
        (get_bloch_vector_from_rho rho).2.1 ^ 2 +
        (get_bloch_vector_from_rho rho).2.2 ^ 2) ≤ Real.sqrt 1 :=
          Real.sqrt_le_sqrt hS_le
      _ = 1 := Real.sqrt_one
  · rw [Real.sqrt_eq_one]
    constructor
    · intro h
      have := hS.symm.trans h
      linarith
    · intro h
      rw [hS, h]
      ring

/-- Witness for C1: the pure state ρ = diag(1,0) satisfies the hypotheses and
hence the conclusion. -/
theorem C1_bloch_norm_witness :
    (Matrix.diagonal ![(1 : ℂ), 0]).PosSemidef ∧
    (Matrix.diagonal ![(1 : ℂ), 0]).trace = 1 ∧
    (Real.sqrt ((get_bloch_vector_from_rho (Matrix.diagonal ![(1 : ℂ), 0])).1 ^ 2 +
        (get_bloch_vector_from_rho (Matrix.diagonal ![(1 : ℂ), 0])).2.1 ^ 2 +
        (get_bloch_vector_from_rho (Matrix.diagonal ![(1 : ℂ), 0])).2.2 ^ 2) ≤ 1 ∧
    (Real.sqrt ((get_bloch_vector_from_rho (Matrix.diagonal ![(1 : ℂ), 0])).1 ^ 2 +
        (get_bloch_vector_from_rho (Matrix.diagonal ![(1 : ℂ), 0])).2.1 ^ 2 +
        (get_bloch_vector_from_rho (Matrix.diagonal ![(1 : ℂ), 0])).2.2 ^ 2) = 1 ↔
      purity_from_rho (Matrix.diagonal ![(1 : ℂ), 0]) = 1) ∧
    (get_bloch_vector_from_rho (Matrix.diagonal ![(1 : ℂ), 0])).1 ^ 2 +
        (get_bloch_vector_from_rho (Matrix.diagonal ![(1 : ℂ), 0])).2.1 ^ 2 +
        (get_bloch_vector_from_rho (Matrix.diagonal ![(1 : ℂ), 0])).2.2 ^ 2 =
      2 * purity_from_rho (Matrix.diagonal ![(1 : ℂ), 0]) - 1) := by
  have hpsd : (Matrix.diagonal ![(1 : ℂ), 0]).PosSemidef := by
    refine Matrix.PosSemidef.diagonal ?_
    intro i
    fin_cases i <;> simp [Complex.le_def]
  have htr : (Matrix.diagonal ![(1 : ℂ), 0]).trace = 1 := by
    simp [Matrix.trace_diagonal, Fin.sum_univ_two]
  exact ⟨hpsd, htr, C1_bloch_norm_le_one_iff_pure _ hpsd htr⟩

/-- Place the binary digits of x (little-endian) at the qubit positions listed
in qs, producing the corresponding computational-basis index. -/
def scatter : List ℕ → ℕ → ℕ
  | [], _ => 0
  | q :: qs, x => x % 2 * 2 ^ q + scatter qs (x / 2)

lemma scatter_nil (x : ℕ) : scatter [] x = 0 := rfl

lemma scatter_cons (q : ℕ) (qs : List ℕ) (x : ℕ) :
    scatter (q :: qs) x = x % 2 * 2 ^ q + scatter qs (x / 2) := rfl

/-- Reduce a basis index into Fin (2^n). -/
def finPow (n x : ℕ) : Fin (2 ^ n) :=
  ⟨x % 2 ^ n, Nat.mod_lt x (by positivity)⟩

/-- The entrywise partial-trace contraction: entry (i, j) of the reduced
matrix sums the input matrix over all assignments of the traced-out qubits,
with the bits of i and j placed at the kept qubit positions. -/
def traceOutKernel {n : ℕ} (dm : Matrix (Fin (2 ^ n)) (Fin (2 ^ n)) ℂ)
    (kept traced : List ℕ) :
    Matrix (Fin (2 ^ kept.length)) (Fin (2 ^ kept.length)) ℂ :=
  Matrix.of fun i j =>
    ∑ k ∈ Finset.range (2 ^ traced.length),
      dm (finPow n (scatter kept i.val + scatter traced k))
        (finPow n (scatter kept j.val + scatter traced k))

/-- Modelled from the spec: qiskit.quantum_info.partial_trace, the library
routine called by get_reduced_density_matrix whose body is not part of this
repository. Per the spec it performs the standard partial-trace contraction
over the listed subsystems, "sum over all bit positions except target where
output-bit = input-bit"; an invalid subsystem index fails with an index
error, a valid call returns the reduced matrix over the kept qubits
(ascending order). -/
def qiskit_trace_out {n : ℕ} (dm : Matrix (Fin (2 ^ n)) (Fin (2 ^ n)) ℂ)
    (qargs : List ℕ) :
    Except String ((m : ℕ) × Matrix (Fin (2 ^ m)) (Fin (2 ^ m)) ℂ) :=
  if qargs.all (fun q => q < n) then
    Except.ok ⟨((List.range n).filter (fun i => i ∉ qargs)).length,
      traceOutKernel dm ((List.range n).filter (fun i => i ∉ qargs)) qargs⟩
  else Except.error "IndexError"

/-- Embedding of quantum_utils.get_reduced_density_matrix: build the list
[i for i in range(num_qubits) if i != target_qubit] of qubits to trace out
and hand it to the library partial trace. -/
def get_reduced_density_matrix (num_qubits : ℕ)
    (full_dm : Matrix (Fin (2 ^ num_qubits)) (Fin (2 ^ num_qubits)) ℂ)
    (target_qubit : ℕ) :
    Except String ((m : ℕ) × Matrix (Fin (2 ^ m)) (Fin (2 ^ m)) ℂ) :=
  qiskit_trace_out full_dm
    ((List.range num_qubits).filter (fun i => i ≠ target_qubit))

/-- C3: with num_qubits = 1 and target_qubit = 0 the set of traced-out qubits
is empty and the input density matrix comes back unchanged. -/
theorem C3_single_qubit_reduction_is_identity
    (full_dm : Matrix (Fin (2 ^ 1)) (Fin (2 ^ 1)) ℂ) :
    get_reduced_density_matrix 1 full_dm 0 = Except.ok ⟨1, full_dm⟩ := by
  have hq : (List.range 1).filter (fun i => i ≠ 0) = [] := by decide
  have hk : (List.range 1).filter (fun i => i ∉ ([] : List ℕ)) = [0] := by decide
  unfold get_reduced_density_matrix
  rw [hq]
  unfold qiskit_trace_out
  rw [if_pos (by decide), hk]
  have hker : traceOutKernel full_dm [0] [] = full_dm := by
    funext i j
    show ∑ k ∈ Finset.range (2 ^ ([] : List ℕ).length),
        full_dm (finPow 1 (scatter [0] i.val + scatter [] k))
          (finPow 1 (scatter [0] j.val + scatter [] k)) = full_dm i j
    rw [show (2 ^ ([] : List ℕ).length) = 1 from rfl, Finset.sum_range_one]
    have hi : finPow 1 (scatter [0] i.val + scatter [] 0) = i := by
      apply Fin.ext
      simp [finPow, scatter]
      try omega
    have hj : finPow 1 (scatter [0] j.val + scatter [] 0) = j := by
      apply Fin.ext
      simp [finPow, scatter]
      try omega
    rw [hi, hj]
  rw [hker]
  rfl

lemma reduce2_target0 (dm : Matrix (Fin (2 ^ 2)) (Fin (2 ^ 2)) ℂ) :
    get_reduced_density_matrix 2 dm 0 =
      Except.ok ⟨1, !![dm 0 0 + dm 2 2, dm 0 1 + dm 2 3;
        dm 1 0 + dm 3 2, dm 1 1 + dm 3 3]⟩ := by
  have hq : (List.range 2).filter (fun i => i ≠ 0) = [1] := by decide
  have hk : (List.range 2).filter (fun i => i ∉ ([1] : List ℕ)) = [0] := by decide
  unfold get_reduced_density_matrix
  rw [hq]
  unfold qiskit_trace_out
  rw [if_pos (by decide), hk]
  have g0 : finPow 2 (scatter [0] 0 + scatter [1] 0) = (0 : Fin (2 ^ 2)) := by decide
  have g1 : finPow 2 (scatter [0] 0 + scatter [1] 1) = (2 : Fin (2 ^ 2)) := by decide
  have g2 : finPow 2 (scatter [0] 1 + scatter [1] 0) = (1 : Fin (2 ^ 2)) := by decide
  have g3 : finPow 2 (scatter [0] 1 + scatter [1] 1) = (3 : Fin (2 ^ 2)) := by decide
  have hker : traceOutKernel dm [0] [1] =
      !![dm 0 0 + dm 2 2, dm 0 1 + dm 2 3; dm 1 0 + dm 3 2, dm 1 1 + dm 3 3] := by
    funext i j
    fin_cases i <;> fin_cases j <;>
      simp [traceOutKernel, show (2 ^ ([1] : List ℕ).length) = 2 from rfl,
        Finset.sum_range_succ, g0, g1, g2, g3]
  rw [hker]
  rfl

lemma reduce2_target1 (dm : Matrix (Fin (2 ^ 2)) (Fin (2 ^ 2)) ℂ) :
    get_reduced_density_matrix 2 dm 1 =
      Except.ok ⟨1, !![dm 0 0 + dm 1 1, dm 0 2 + dm 1 3;
        dm 2 0 + dm 3 1, dm 2 2 + dm 3 3]⟩ := by
  have hq : (List.range 2).filter (fun i => i ≠ 1) = [0] := by decide
  have hk : (List.range 2).filter (fun i => i ∉ ([0] : List ℕ)) = [1] := by decide
  unfold get_reduced_density_matrix
  rw [hq]
  unfold qiskit_trace_out
  rw [if_pos (by decide), hk]
  have g0 : finPow 2 (scatter [1] 0 + scatter [0] 0) = (0 : Fin (2 ^ 2)) := by decide
  have g1 : finPow 2 (scatter [1] 0 + scatter [0] 1) = (1 : Fin (2 ^ 2)) := by decide
  have g2 : finPow 2 (scatter [1] 1 + scatter [0] 0) = (2 : Fin (2 ^ 2)) := by decide
  have g3 : finPow 2 (scatter [1] 1 + scatter [0] 1) = (3 : Fin (2 ^ 2)) := by decide
  have hker : traceOutKernel dm [1] [0] =
      !![dm 0 0 + dm 1 1, dm 0 2 + dm 1 3; dm 2 0 + dm 3 1, dm 2 2 + dm 3 3] := by
    funext i j
    fin_cases i <;> fin_cases j <;>
      simp [traceOutKernel, show (2 ^ ([0] : List ℕ).length) = 2 from rfl,
        Finset.sum_range_succ, g0, g1, g2, g3]
  rw [hker]
  rfl

/-- The Bell statevector (|00⟩ + |11⟩)/√2 over the 2-qubit basis. -/
def bell_vec : Fin (2 ^ 2) → ℂ :=
  ![((Real.sqrt 2 : ℝ) : ℂ)⁻¹, 0, 0, ((Real.sqrt 2 : ℝ) : ℂ)⁻¹]

/-- The Bell density matrix: outer product of bell_vec with itself. -/
def bell_dm : Matrix (Fin (2 ^ 2)) (Fin (2 ^ 2)) ℂ :=
  Matrix.of fun i j => bell_vec i * (starRingEnd ℂ) (bell_vec j)

lemma inv_sqrt_two_sq :
    ((Real.sqrt 2 : ℝ) : ℂ)⁻¹ * ((Real.sqrt 2 : ℝ) : ℂ)⁻¹ = 1 / 2 := by
  rw [← mul_inv, ← Complex.ofReal_mul, Real.mul_self_sqrt (by norm_num)]
  norm_num

lemma bell_dm_eq :
    bell_dm = !![(1 : ℂ)/2, 0, 0, 1/2; 0, 0, 0, 0; 0, 0, 0, 0; (1 : ℂ)/2, 0, 0, 1/2] := by
  funext i j
  fin_cases i <;> fin_cases j <;>
    simp [bell_dm, bell_vec, Complex.conj_ofReal, inv_sqrt_two_sq,
      Matrix.vecHead, Matrix.vecTail]

/-- C4: for the Bell-state density matrix, the reduced density matrix of each
qubit is [[1/2, 0], [0, 1/2]]; on that matrix the Bloch vector is (0,0,0) and
the purity is 1/2, while the purity of the full Bell density matrix is 1. -/
theorem C4_bell_reduction_and_purity :
    get_reduced_density_matrix 2 bell_dm 0 = Except.ok ⟨1, !![(1 : ℂ)/2, 0; 0, 1/2]⟩ ∧
    get_reduced_density_matrix 2 bell_dm 1 = Except.ok ⟨1, !![(1 : ℂ)/2, 0; 0, 1/2]⟩ ∧
    get_bloch_vector_from_rho !![(1 : ℂ)/2, 0; 0, 1/2] = (0, 0, 0) ∧
    purity_from_rho !![(1 : ℂ)/2, 0; 0, 1/2] = 1/2 ∧
    purity_from_rho bell_dm = 1 := by
  have hhalf : !![bell_dm 0 0 + bell_dm 2 2, bell_dm 0 1 + bell_dm 2 3;
      bell_dm 1 0 + bell_dm 3 2, bell_dm 1 1 + bell_dm 3 3] =
      !![(1 : ℂ)/2, 0; 0, 1/2] := by
    rw [bell_dm_eq]
    ext i j
    fin_cases i <;> fin_cases j <;>
      norm_num [Matrix.vecHead, Matrix.vecTail]
  have hhalf' : !![bell_dm 0 0 + bell_dm 1 1, bell_dm 0 2 + bell_dm 1 3;
      bell_dm 2 0 + bell_dm 3 1, bell_dm 2 2 + bell_dm 3 3] =
      !![(1 : ℂ)/2, 0; 0, 1/2] := by
    rw [bell_dm_eq]
    ext i j
    fin_cases i <;> fin_cases j <;>
      norm_num [Matrix.vecHead, Matrix.vecTail]
  refine ⟨?_, ?_, ?_, ?_, ?_⟩
  · rw [reduce2_target0, hhalf]
  · rw [reduce2_target1, hhalf']
  · unfold get_bloch_vector_from_rho
    rw [trace_pauli_x_mul, trace_pauli_y_mul, trace_pauli_z_mul]
    norm_num [Matrix.vecHead, Matrix.vecTail]
  · unfold purity_from_rho
    simp [Matrix.trace_fin_two, Matrix.mul_apply, Fin.sum_univ_two]
    norm_num
  · unfold purity_from_rho
    rw [bell_dm_eq]
    simp [Matrix.trace, Matrix.diag, Fin.sum_univ_four, Matrix.mul_apply,
      Matrix.vecHead, Matrix.vecTail]
    norm_num

lemma scatter_map_succ (qs : List ℕ) (x : ℕ) :
    scatter (qs.map Nat.succ) x = 2 * scatter qs x := by
  induction qs generalizing x with
  | nil => simp [scatter]
  | cons q qs ih =>
    simp only [List.map_cons, scatter_cons, ih, Nat.succ_eq_add_one]
    ring

lemma scatter_range (n x : ℕ) : scatter (List.range n) x = x % 2 ^ n := by
  induction n generalizing x with
  | zero => simp [scatter, Nat.mod_one]
  | succ n ih =>
    rw [List.range_succ_eq_map, scatter_cons, scatter_map_succ, ih, pow_zero,
      pow_succ', Nat.mod_mul]
    ring

/-- C5 counterexample: with num_qubits = 1 and the out-of-range target 1 the
function does not fail; it returns the 1x1 matrix [[1]] (every qubit of
diag(1,0) is traced out). -/
theorem C5_counterexample_out_of_range_returns_ok :
    get_reduced_density_matrix 1 (Matrix.diagonal ![(1 : ℂ), 0]) 1 =
      Except.ok ⟨0, Matrix.of fun _ _ => 1⟩ := by
  have hq : (List.range 1).filter (fun i => i ≠ 1) = [0] := by decide
  have hk : (List.range 1).filter (fun i => i ∉ ([0] : List ℕ)) = [] := by decide
  unfold get_reduced_density_matrix
  rw [hq]
  unfold qiskit_trace_out
  rw [if_pos (by decide), hk]
  have g0 : finPow 1 (scatter [] 0 + scatter [0] 0) = (0 : Fin (2 ^ 1)) := by decide
  have g1 : finPow 1 (scatter [] 0 + scatter [0] 1) = (1 : Fin (2 ^ 1)) := by decide
  have hker : traceOutKernel (n := 1) (Matrix.diagonal ![(1 : ℂ), 0]) [] [0] =
      Matrix.of fun _ _ => 1 := by
    funext i j
    have hi : i.val = 0 := Nat.lt_one_iff.mp i.isLt
    have hj : j.val = 0 := Nat.lt_one_iff.mp j.isLt
    show ∑ k ∈ Finset.range (2 ^ ([0] : List ℕ).length),
        (Matrix.diagonal ![(1 : ℂ), 0]) (finPow 1 (scatter [] i.val + scatter [0] k))
          (finPow 1 (scatter [] j.val + scatter [0] k)) = 1
    rw [hi, hj, show (2 ^ ([0] : List ℕ).length) = 2 from rfl,
      Finset.sum_range_succ, Finset.sum_range_one, g0, g1]
    simp
  rw [hker]
  rfl

/-- C5 amended: for every n ≥ 1 and target outside [0, n), the traced-out
list is all of range n, so the call raises nothing and returns the 0-qubit
(1x1) matrix whose sole entry is the trace of the input. -/
theorem C5_amended_out_of_range_traces_all_qubits (n : ℕ)
    (dm : Matrix (Fin (2 ^ n)) (Fin (2 ^ n)) ℂ) (t : ℕ) (hn : 1 ≤ n) (ht : n ≤ t) :
    get_reduced_density_matrix n dm t =
      Except.ok ⟨0, Matrix.of fun _ _ => dm.trace⟩ := by
  have hq : (List.range n).filter (fun i => i ≠ t) = List.range n := by
    apply List.filter_eq_self.mpr
    intro a ha
    simp only [List.mem_range] at ha
    simp only [decide_eq_true_eq]
    omega
  have hk : (List.range n).filter (fun i => i ∉ List.range n) = [] := by
    apply List.filter_eq_nil_iff.mpr
    intro a ha
    simp [ha]
  have hall : (List.range n).all (fun q => decide (q < n)) = true := by
    apply List.all_eq_true.mpr
    intro a ha
    simp only [List.mem_range] at ha
    simpa using ha
  unfold get_reduced_density_matrix
  rw [hq]
  unfold qiskit_trace_out
  rw [if_pos hall, hk]
  have htrace : dm.trace = ∑ k ∈ Finset.range (2 ^ n), dm (finPow n k) (finPow n k) := by
    rw [Matrix.trace, ← Fin.sum_univ_eq_sum_range (fun k => dm (finPow n k) (finPow n k))]
    apply Finset.sum_congr rfl
    intro i _
    have : finPow n i.val = i := by
      apply Fin.ext
      simp [finPow, Nat.mod_eq_of_lt i.isLt]
    rw [this]
    rfl
  have hker : traceOutKernel dm [] (List.range n) = Matrix.of fun _ _ => dm.trace := by
    funext i j
    show ∑ k ∈ Finset.range (2 ^ (List.range n).length),
        dm (finPow n (scatter [] i.val + scatter (List.range n) k))
          (finPow n (scatter [] j.val + scatter (List.range n) k)) = dm.trace
    rw [List.length_range, htrace]
    apply Finset.sum_congr rfl
    intro k hk'
    have hklt : k < 2 ^ n := Finset.mem_range.mp hk'
    have harg : finPow n (scatter [] i.val + scatter (List.range n) k) = finPow n k := by
      apply Fin.ext
      simp [finPow, scatter_nil, scatter_range, Nat.mod_eq_of_lt hklt]
    have harg2 : finPow n (scatter [] j.val + scatter (List.range n) k) = finPow n k := by
      apply Fin.ext
      simp [finPow, scatter_nil, scatter_range, Nat.mod_eq_of_lt hklt]
    rw [harg, harg2]
  rw [hker]
  rfl

/-- Witness for the amended C5 at n = 1, target = 1, dm = diag(1, 0). -/
theorem C5_amended_witness :
    (1 : ℕ) ≤ 1 ∧ (1 : ℕ) ≤ 1 ∧
    get_reduced_density_matrix 1 (Matrix.diagonal ![(1 : ℂ), 0]) 1 =
      Except.ok ⟨0, Matrix.of fun _ _ => (Matrix.diagonal ![(1 : ℂ), 0]).trace⟩ :=
  ⟨le_refl 1, le_refl 1,
    C5_amended_out_of_range_traces_all_qubits 1 (Matrix.diagonal ![(1 : ℂ), 0]) 1
      (le_refl 1) (le_refl 1)⟩

end

/-- The quantum error channels qiskit_aer.noise can construct, by constructor
name and parameters; build_noise_model uses only these three. -/
inductive QuantumError where
  | depolarizing (p : ℚ) (num_qubits : ℕ)
  | amplitude_damping (gamma : ℚ)
  | phase_damping (gamma : ℚ)
deriving DecidableEq

/-- The qubit arity of a channel (qiskit QuantumError.num_qubits):
depolarizing_error carries its num_qubits argument; the two damping channels
are single-qubit. -/
def QuantumError.num_qubits : QuantumError → ℕ
  | .depolarizing _ n => n
  | .amplitude_damping _ => 1
  | .phase_damping _ => 1

/-- Modelled from the spec: qiskit_aer.noise.depolarizing_error, whose body
is not part of this repository. Per the spec the underlying error-channel
constructors fail with an error when the probability parameter is out of
range; for depolarizing the admissible range is
0 ≤ p ≤ num_terms/(num_terms − 1) with num_terms = 4^num_qubits
(so up to 4/3 for one qubit). -/
def depolarizing_error (p : ℚ) (num_qubits : ℕ) : Except String QuantumError :=
  if 0 ≤ p ∧ p ≤ (4 ^ num_qubits : ℚ) / ((4 ^ num_qubits : ℚ) - 1) then
    Except.ok (QuantumError.depolarizing p num_qubits)
  else Except.error "NoiseError"

/-- Modelled from the spec: qiskit_aer.noise.amplitude_damping_error fails
with an error unless its damping parameter lies in [0, 1]. -/
def amplitude_damping_error (gamma : ℚ) : Except String QuantumError :=
  if 0 ≤ gamma ∧ gamma ≤ 1 then Except.ok (QuantumError.amplitude_damping gamma)
  else Except.error "NoiseError"

/-- Modelled from the spec: qiskit_aer.noise.phase_damping_error fails with
an error unless its damping parameter lies in [0, 1]. -/
def phase_damping_error (gamma : ℚ) : Except String QuantumError :=
  if 0 ≤ gamma ∧ gamma ≤ 1 then Except.ok (QuantumError.phase_damping gamma)
  else Except.error "NoiseError"

/-- Modelled from the spec: the arities of the standard instructions the code
attaches noise to — cx (and cz) are the two-qubit gates, the rest of the
attached set {h, x, y, z, s, t} are single-qubit. -/
def standard_gate_num_qubits (name : String) : ℕ :=
  if name = "cx" ∨ name = "cz" then 2 else 1

/-- A qiskit_aer NoiseModel as observed by build_noise_model: the list of
all-qubit quantum errors with their attached gate names (in insertion
order), and the optional all-qubit readout error given by its 2x2
row-stochastic confusion matrix (as the list-of-rows literal the code
passes to ReadoutError). Noise parameters are modelled as exact rationals
in place of Python floats. -/
structure NoiseModel where
  quantum_errors : List (QuantumError × List String)
  readout_error : Option (List (List ℚ))
deriving DecidableEq

/-- Modelled from the spec: NoiseModel.add_all_qubit_quantum_error checks
each listed standard instruction's arity against the channel's and raises
NoiseError on a mismatch (a 1-qubit channel cannot be attached to the
2-qubit cx); otherwise it records the channel with its gate set. -/
def NoiseModel.add_all_qubit_quantum_error (noise : NoiseModel)
    (error : QuantumError) (instructions : List String) :
    Except String NoiseModel :=
  if instructions.all (fun name => standard_gate_num_qubits name == error.num_qubits) then
    Except.ok { noise with quantum_errors := noise.quantum_errors ++ [(error, instructions)] }
  else Except.error "NoiseError"

/-- Modelled from the spec: the ReadoutError constructor validates its
confusion matrix — every entry nonnegative and each row a probability
distribution summing to 1 — failing with an error for probabilities
out of [0, 1]. -/
def ReadoutError (probabilities : List (List ℚ)) : Except String (List (List ℚ)) :=
  if probabilities.all (fun row =>
      (row.all fun p => decide (0 ≤ p)) && decide (row.sum = 1)) then
    Except.ok probabilities
  else Except.error "NoiseError"

/-- Modelled from the spec: NoiseModel.add_all_qubit_readout_error records
the (already validated) readout error as every qubit's readout error. -/
def NoiseModel.add_all_qubit_readout_error (noise : NoiseModel)
    (error : List (List ℚ)) : Except String NoiseModel :=
  Except.ok { noise with readout_error := some error }

/-- Embedding of app.build_noise_model: starting from an empty model, each of
the four if blocks constructs its channel and attaches it exactly when its
parameter makes the condition true; a NoiseError raised by a constructor or
an attach aborts the call (sequenced with Except.bind), as the Python
exception would. -/
def build_noise_model (depol_p decay_f phase_g ro_01 ro_10 : ℚ) :
    Except String NoiseModel :=
  let noise : NoiseModel := { quantum_errors := [], readout_error := none }
  Except.bind
    (if depol_p > 0 then
      Except.bind (depolarizing_error depol_p 1) (fun err =>
        noise.add_all_qubit_quantum_error err ["h", "x", "y", "z", "s", "t", "cx"])
    else Except.ok noise) (fun noise =>
  Except.bind
    (if decay_f > 0 then
      Except.bind (amplitude_damping_error decay_f) (fun err =>
        noise.add_all_qubit_quantum_error err ["h", "x", "y", "z", "s", "t"])
    else Except.ok noise) (fun noise =>
  Except.bind
    (if phase_g > 0 then
      Except.bind (phase_damping_error phase_g) (fun err =>
        noise.add_all_qubit_quantum_error err ["h", "x", "y", "z", "s", "t"])
    else Except.ok noise) (fun noise =>
  if ro_01 > 0 ∨ ro_10 > 0 then
    Except.bind (ReadoutError [[1 - ro_01, ro_01], [ro_10, 1 - ro_10]]) (fun err =>
      noise.add_all_qubit_readout_error err)
  else Except.ok noise)))

lemma except_ok_bind {α β : Type} (a : α) (f : α → Except String β) :
    Except.bind (Except.ok a) f = f a := rfl

lemma depolarizing_error_ok (p : ℚ) (n : ℕ)
    (h : 0 ≤ p ∧ p ≤ (4 ^ n : ℚ) / ((4 ^ n : ℚ) - 1)) :
    depolarizing_error p n = Except.ok (QuantumError.depolarizing p n) := by
  unfold depolarizing_error
  rw [if_pos h]

lemma depolarizing_error_invalid (p : ℚ) (n : ℕ)
    (h : ¬ (0 ≤ p ∧ p ≤ (4 ^ n : ℚ) / ((4 ^ n : ℚ) - 1))) :
    depolarizing_error p n = Except.error "NoiseError" := by
  unfold depolarizing_error
  rw [if_neg h]

lemma ReadoutError_of_valid (rows : List (List ℚ))
    (h : (rows.all (fun row =>
      (row.all fun p => decide (0 ≤ p)) && decide (row.sum = 1))) = true) :
    ReadoutError rows = Except.ok rows := by
  unfold ReadoutError
  rw [if_pos h]

lemma ReadoutError_of_invalid (rows : List (List ℚ))
    (h : ¬ ((rows.all (fun row =>
      (row.all fun p => decide (0 ≤ p)) && decide (row.sum = 1))) = true)) :
    ReadoutError rows = Except.error "NoiseError" := by
  unfold ReadoutError
  rw [if_neg h]

/-- C6 (code bug): for every depol_p > 0 the call raises NoiseError instead
of returning the claimed model — the 1-qubit depolarizing channel cannot be
attached to the 2-qubit gate cx (and for depol_p > 4/3 the constructor
itself already raises) — so the claimed attachment never happens. -/
theorem C6_depolarizing_always_raises (depol_p : ℚ) (h : depol_p > 0) :
    build_noise_model depol_p 0 0 0 0 = Except.error "NoiseError" := by
  simp only [build_noise_model]
  rw [if_pos h]
  by_cases hv : 0 ≤ depol_p ∧ depol_p ≤ (4 ^ 1 : ℚ) / ((4 ^ 1 : ℚ) - 1)
  · rw [depolarizing_error_ok depol_p 1 hv]
    rfl
  · rw [depolarizing_error_invalid depol_p 1 hv]
    rfl

/-- Witness for C6 at depol_p = 1/10: the call fails with NoiseError. -/
theorem C6_depolarizing_raises_witness :
    (1 : ℚ)/10 > 0 ∧
    build_noise_model ((1 : ℚ)/10) 0 0 0 0 = Except.error "NoiseError" :=
  ⟨by norm_num, C6_depolarizing_always_raises ((1 : ℚ)/10) (by norm_num)⟩

/-- C7: all parameters 0: no constructor and no attach runs, nothing can
raise, and the call returns the literally empty model — no quantum error
channels, no readout error. -/
theorem C7_zero_parameters_empty_model :
    build_noise_model 0 0 0 0 0 =
      Except.ok { quantum_errors := [], readout_error := none } := by
  rfl

/-- C8 counterexample: at ro_01 = 2 (> 0, everything else 0) the ReadoutError
row [1 − 2, 2] fails validation, and at depol_p = 1/10, ro_01 = 1/10 the cx
attach raises before the readout branch; both calls return NoiseError and
attach no readout matrix, refuting the claim as stated. -/
theorem C8_counterexample_error_paths :
    ((2 : ℚ) > 0 ∨ (0 : ℚ) > 0) ∧
    build_noise_model 0 0 0 2 0 = Except.error "NoiseError" ∧
    build_noise_model ((1 : ℚ)/10) 0 0 ((1 : ℚ)/10) 0 = Except.error "NoiseError" := by
  have h0 : ¬ ((0 : ℚ) > 0) := by norm_num
  refine ⟨Or.inl (by norm_num), ?_, ?_⟩
  · simp only [build_noise_model, if_neg h0, except_ok_bind]
    rw [if_pos (show (2 : ℚ) > 0 ∨ (0 : ℚ) > 0 from Or.inl (by norm_num))]
    rw [ReadoutError_of_invalid _ (by
      simp only [List.all_cons, List.all_nil, Bool.and_true, Bool.and_eq_true,
        decide_eq_true_eq, List.sum_cons, List.sum_nil]
      norm_num)]
    rfl
  · simp only [build_noise_model, if_neg h0]
    rw [if_pos (show (1 : ℚ)/10 > 0 by norm_num)]
    rw [depolarizing_error_ok ((1 : ℚ)/10) 1 (by constructor <;> norm_num)]
    rfl

/-- C8 amended: with the other three parameters 0 and ro_01, ro_10 in [0,1],
if ro_01 > 0 or ro_10 > 0 the call succeeds and the model's all-qubit
readout error is exactly [[1 − ro_01, ro_01], [ro_10, 1 − ro_10]] with
nothing else attached; with ro_01 = ro_10 = 0 no readout error is
attached. -/
theorem C8_amended_readout_confusion_matrix (ro_01 ro_10 : ℚ)
    (h0a : 0 ≤ ro_01) (h1a : ro_01 ≤ 1) (h0b : 0 ≤ ro_10) (h1b : ro_10 ≤ 1) :
    (ro_01 > 0 ∨ ro_10 > 0 →
      build_noise_model 0 0 0 ro_01 ro_10 =
        Except.ok { quantum_errors := [],
                    readout_error := some [[1 - ro_01, ro_01], [ro_10, 1 - ro_10]] }) ∧
    (ro_01 = 0 → ro_10 = 0 →
      build_noise_model 0 0 0 ro_01 ro_10 =
        Except.ok { quantum_errors := [], readout_error := none }) := by
  have h0 : ¬ ((0 : ℚ) > 0) := by norm_num
  constructor
  · intro hro
    simp only [build_noise_model, if_neg h0, except_ok_bind]
    rw [if_pos hro]
    rw [ReadoutError_of_valid _ (by
      simp only [List.all_cons, List.all_nil, Bool.and_true, Bool.and_eq_true,
        decide_eq_true_eq, List.sum_cons, List.sum_nil]
      refine ⟨⟨⟨by linarith, by linarith⟩, by ring⟩, ⟨by linarith, by linarith⟩, by ring⟩)]
    rfl
  · intro ha hb
    subst ha
    subst hb
    rfl

/-- Witness for the amended C8 at ro_01 = 1/10, ro_10 = 0. -/
theorem C8_amended_witness :
    (0 ≤ (1 : ℚ)/10 ∧ (1 : ℚ)/10 ≤ 1 ∧ ((1 : ℚ)/10 > 0 ∨ (0 : ℚ) > 0)) ∧
    build_noise_model 0 0 0 ((1 : ℚ)/10) 0 =
      Except.ok { quantum_errors := [],
                  readout_error := some [[1 - (1 : ℚ)/10, (1 : ℚ)/10], [0, 1 - 0]] } :=
  ⟨⟨by norm_num, by norm_num, Or.inl (by norm_num)⟩,
    (C8_amended_readout_confusion_matrix ((1 : ℚ)/10) 0 (by norm_num) (by norm_num)
      (le_refl 0) (by norm_num)).1 (Or.inl (by norm_num))⟩

/-- The circuit operations create_circuit_from_gates can emit: the gate kind
with its operands in application order (angle first for rotations, as
qc.rx(gate[2], gate[1])). Operand values are modelled as rationals since the
Python tuples are untyped. -/
inductive Op where
  | h (q : ℚ)
  | x (q : ℚ)
  | y (q : ℚ)
  | z (q : ℚ)
  | rx (theta q : ℚ)
  | ry (theta q : ℚ)
  | rz (theta q : ℚ)
  | cx (c t : ℚ)
  | cz (c t : ℚ)
deriving DecidableEq

/-- A qiskit QuantumCircuit as observed by create_circuit_from_gates: qubit
count, classical-bit count and the ordered instruction list. -/
structure QuantumCircuit where
  num_qubits : ℕ
  num_clbits : ℕ
  data : List Op
deriving DecidableEq

/-- qiskit's QuantumCircuit(num_qubits): n qubits, no classical bits, empty
instruction list. -/
def QuantumCircuit.init (n : ℕ) : QuantumCircuit := ⟨n, 0, []⟩

/-- Appending one instruction, as every qiskit gate method does. -/
def QuantumCircuit.append (qc : QuantumCircuit) (op : Op) : QuantumCircuit :=
  { qc with data := qc.data ++ [op] }

def QuantumCircuit.h (qc : QuantumCircuit) (q : ℚ) : QuantumCircuit := qc.append (Op.h q)

def QuantumCircuit.x (qc : QuantumCircuit) (q : ℚ) : QuantumCircuit := qc.append (Op.x q)

def QuantumCircuit.y (qc : QuantumCircuit) (q : ℚ) : QuantumCircuit := qc.append (Op.y q)

def QuantumCircuit.z (qc : QuantumCircuit) (q : ℚ) : QuantumCircuit := qc.append (Op.z q)

def QuantumCircuit.rx (qc : QuantumCircuit) (theta q : ℚ) : QuantumCircuit :=
  qc.append (Op.rx theta q)

def QuantumCircuit.ry (qc : QuantumCircuit) (theta q : ℚ) : QuantumCircuit :=
  qc.append (Op.ry theta q)

def QuantumCircuit.rz (qc : QuantumCircuit) (theta q : ℚ) : QuantumCircuit :=
  qc.append (Op.rz theta q)

def QuantumCircuit.cx (qc : QuantumCircuit) (c t : ℚ) : QuantumCircuit :=
  qc.append (Op.cx c t)

def QuantumCircuit.cz (qc : QuantumCircuit) (c t : ℚ) : QuantumCircuit :=
  qc.append (Op.cz c t)

/-- The loop body of create_circuit_from_gates: the if/elif chain on
gate[0], with gate tuples modelled as (name, gate[1], gate[2]). An
unmatched name falls through to the final else and leaves qc unchanged. -/
def applyGate (qc : QuantumCircuit) (gate : String × ℚ × ℚ) : QuantumCircuit :=
  let gate_name := gate.1
  if gate_name = "h" then qc.h gate.2.1
  else if gate_name = "x" then qc.x gate.2.1
  else if gate_name = "y" then qc.y gate.2.1
  else if gate_name = "z" then qc.z gate.2.1
  else if gate_name = "rx" then qc.rx gate.2.2 gate.2.1
  else if gate_name = "ry" then qc.ry gate.2.2 gate.2.1
  else if gate_name = "rz" then qc.rz gate.2.2 gate.2.1
  else if gate_name = "cx" then qc.cx gate.2.1 gate.2.2
  else if gate_name = "cz" then qc.cz gate.2.1 gate.2.2
  else qc

/-- Embedding of quantum_utils.create_circuit_from_gates: fold the loop body
over the gate list starting from QuantumCircuit(num_qubits). -/
def create_circuit_from_gates (num_qubits : ℕ) (gates : List (String × ℚ × ℚ)) :
    QuantumCircuit :=
  gates.foldl applyGate (QuantumCircuit.init num_qubits)

/-- Spec-side classifier: the instruction a gate tuple denotes, or none for
an unrecognized gate name. -/
def opOfGate (gate : String × ℚ × ℚ) : Option Op :=
  if gate.1 = "h" then some (Op.h gate.2.1)
  else if gate.1 = "x" then some (Op.x gate.2.1)
  else if gate.1 = "y" then some (Op.y gate.2.1)
  else if gate.1 = "z" then some (Op.z gate.2.1)
  else if gate.1 = "rx" then some (Op.rx gate.2.2 gate.2.1)
  else if gate.1 = "ry" then some (Op.ry gate.2.2 gate.2.1)
  else if gate.1 = "rz" then some (Op.rz gate.2.2 gate.2.1)
  else if gate.1 = "cx" then some (Op.cx gate.2.1 gate.2.2)
  else if gate.1 = "cz" then some (Op.cz gate.2.1 gate.2.2)
  else none

lemma applyGate_eq (qc : QuantumCircuit) (g : String × ℚ × ℚ) :
    applyGate qc g = (match opOfGate g with
      | some op => qc.append op
      | none => qc) := by
  simp only [applyGate, opOfGate]
  split_ifs <;> rfl

lemma create_foldl (gates : List (String × ℚ × ℚ)) (qc : QuantumCircuit) :
    gates.foldl applyGate qc =
      ⟨qc.num_qubits, qc.num_clbits, qc.data ++ gates.filterMap opOfGate⟩ := by
  induction gates generalizing qc with
  | nil => simp
  | cons g gs ih =>
    rw [List.foldl_cons, applyGate_eq]
    cases hg : opOfGate g with
    | none =>
      rw [ih]
      simp [List.filterMap_cons, hg]
    | some op =>
      rw [ih]
      simp [List.filterMap_cons, hg, QuantumCircuit.append]

/-- C9: the built circuit applies exactly the recognized operations in list
order (it equals the filterMap of the spec-side classifier over the list),
and a tuple with an unrecognized gate name leaves the circuit unchanged —
no error, no added operation. -/
theorem C9_unrecognized_gates_silently_skipped (num_qubits : ℕ)
    (gates : List (String × ℚ × ℚ)) :
    create_circuit_from_gates num_qubits gates =
      { num_qubits := num_qubits, num_clbits := 0,
        data := gates.filterMap opOfGate } ∧
    (∀ (qc : QuantumCircuit) (g : String × ℚ × ℚ),
      g.1 ∉ (["h", "x", "y", "z", "rx", "ry", "rz", "cx", "cz"] : List String) →
      applyGate qc g = qc) := by
  constructor
  · unfold create_circuit_from_gates
    rw [create_foldl]
    rfl
  · intro qc g hg
    simp only [applyGate]
    split_ifs with h1 h2 h3 h4 h5 h6 h7 h8 h9 <;> simp_all

/-- Witness for C9: the unrecognized gate name "foo" is skipped. -/
theorem C9_unrecognized_witness :
    (("foo", (0 : ℚ), (0 : ℚ)).1 ∉
      (["h", "x", "y", "z", "rx", "ry", "rz", "cx", "cz"] : List String)) ∧
    applyGate (QuantumCircuit.init 2) ("foo", (0 : ℚ), (0 : ℚ)) = QuantumCircuit.init 2 :=
  ⟨by decide,
    (C9_unrecognized_gates_silently_skipped 2 []).2 (QuantumCircuit.init 2)
      ("foo", (0 : ℚ), (0 : ℚ)) (by decide)⟩

lemma opOfGate_eq_none_iff (g : String × ℚ × ℚ) :
    opOfGate g = none ↔
      g.1 ∉ (["h", "x", "y", "z", "rx", "ry", "rz", "cx", "cz"] : List String) := by
  simp only [opOfGate]
  split_ifs with h1 h2 h3 h4 h5 h6 h7 h8 h9 <;> simp_all

lemma length_filterMap_opOfGate (gates : List (String × ℚ × ℚ)) :
    (gates.filterMap opOfGate).length =
      (gates.filter (fun g =>
        g.1 ∈ (["h", "x", "y", "z", "rx", "ry", "rz", "cx", "cz"] : List String))).length := by
  induction gates with
  | nil => rfl
  | cons g gs ih =>
    cases hg : opOfGate g with
    | none =>
      have hmem := (opOfGate_eq_none_iff g).mp hg
      rw [List.filterMap_cons, List.filter_cons]
      simp only [hg]
      rw [if_neg (by simpa using hmem)]
      exact ih
    | some op =>
      have hmem : g.1 ∈ (["h", "x", "y", "z", "rx", "ry", "rz", "cx", "cz"] : List String) := by
        by_contra hmem
        rw [(opOfGate_eq_none_iff g).mpr hmem] at hg
        simp at hg
      rw [List.filterMap_cons, List.filter_cons]
      simp only [hg]
      rw [if_pos (by simpa using hmem)]
      simp [ih]

/-- C10: the built circuit has exactly num_qubits qubits, zero classical
bits, and as many operations as there are tuples with a recognized gate
name in the input list. -/
theorem C10_circuit_size_invariants (num_qubits : ℕ) (gates : List (String × ℚ × ℚ)) :
    (create_circuit_from_gates num_qubits gates).num_qubits = num_qubits ∧
    (create_circuit_from_gates num_qubits gates).num_clbits = 0 ∧
    (create_circuit_from_gates num_qubits gates).data.length =
      (gates.filter (fun g =>
        g.1 ∈ (["h", "x", "y", "z", "rx", "ry", "rz", "cx", "cz"] : List String))).length := by
  unfold create_circuit_from_gates
  rw [create_foldl]
  refine ⟨rfl, rfl, ?_⟩
  simp only [QuantumCircuit.init, List.nil_append]
  exact length_filterMap_opOfGate gates

end QViz
